import Mathlib

/-!
Verification development for the Data-Information-System repository
(`src/Core.py`, `src/FileLoader.py`).

The tabular data model follows pandas as the repository uses it: a table
is an ordered list of named columns, each column carries a dtype tag
(`object`, numeric, datetime, timedelta) and a list of optional cells
(`none` is the dtype's missing marker, i.e. `NaN`/`NaT`).  The
date/numeric/duration parsers and the content digest, which the spec
treats as black boxes of the underlying library, are given concrete
executable models here.
-/

namespace DIS

/-! ## Data model: cells, columns, tables -/

/-- A single cell, tagged with the kind of value it holds.  `missing`
stands for pandas' `NaN`/`NaT`; `drop_duplicates` compares missing
markers as equal, which plain equality of this type gives us. -/
inductive Value where
  | missing
  | str (s : String)
  | num (q : ℚ)
  | dt (t : Int)
  | dur (d : Int)
deriving DecidableEq

/-- A column's storage: the dtype tag plus the cell list.  Mirrors a
pandas `Series`: `obj` is dtype `object` (strings as loaded), `num` a
numeric dtype, `dt` `datetime64[ns]`, `dur` `timedelta64[ns]`.  `none`
is the dtype's missing marker. -/
inductive ColData where
  | obj (vs : List (Option String))
  | num (vs : List (Option ℚ))
  | dt (vs : List (Option Int))
  | dur (vs : List (Option Int))
deriving DecidableEq

/-- A named column. -/
structure Col where
  name : String
  data : ColData
deriving DecidableEq

/-- A table: ordered list of named columns (a pandas `DataFrame`). -/
abbrev Table := List Col

/-- Number of cells in a column. -/
def ColData.length : ColData → Nat
  | .obj vs => vs.length
  | .num vs => vs.length
  | .dt vs => vs.length
  | .dur vs => vs.length

/-- The cell at row `j`, as a tagged `Value` (missing past the end). -/
def ColData.elem : ColData → Nat → Value
  | .obj vs, j => match vs.getD j none with | none => .missing | some s => .str s
  | .num vs, j => match vs.getD j none with | none => .missing | some q => .num q
  | .dt vs, j => match vs.getD j none with | none => .missing | some t => .dt t
  | .dur vs, j => match vs.getD j none with | none => .missing | some d => .dur d

/-- Restrict a column to the rows listed in `idxs`, in that order. -/
def ColData.select : ColData → List Nat → ColData
  | .obj vs, idxs => .obj (idxs.map (fun j => vs.getD j none))
  | .num vs, idxs => .num (idxs.map (fun j => vs.getD j none))
  | .dt vs, idxs => .dt (idxs.map (fun j => vs.getD j none))
  | .dur vs, idxs => .dur (idxs.map (fun j => vs.getD j none))

/-- Count of missing markers in a column (`Series.isnull().sum()`). -/
def ColData.missingCount : ColData → Nat
  | .obj vs => (vs.filter Option.isNone).length
  | .num vs => (vs.filter Option.isNone).length
  | .dt vs => (vs.filter Option.isNone).length
  | .dur vs => (vs.filter Option.isNone).length

/-- `pd.api.types.is_object_dtype`. -/
def ColData.isObj : ColData → Bool
  | .obj _ => true
  | _ => false

/-- `pd.api.types.is_numeric_dtype`. -/
def ColData.isNum : ColData → Bool
  | .num _ => true
  | _ => false

/-- `pd.api.types.is_datetime64_any_dtype`. -/
def ColData.isDt : ColData → Bool
  | .dt _ => true
  | _ => false

/-- `pd.api.types.is_timedelta64_dtype`. -/
def ColData.isDur : ColData → Bool
  | .dur _ => true
  | _ => false

/-- Total missing-marker count of a table (`df.isnull().sum().sum()`). -/
def totalMissing (t : Table) : Nat :=
  (t.map (fun c => c.data.missingCount)).sum

/-! ## String utilities (Python `str.strip`, `str.lower`, the regex filter) -/

/-- Python `str.strip()` on a character list: drop whitespace from both
ends. -/
def trimChars (cs : List Char) : List Char :=
  ((cs.dropWhile Char.isWhitespace).reverse.dropWhile Char.isWhitespace).reverse

/-- Python `str.strip()` / pandas `.str.strip()`. -/
def pyStrip (s : String) : String :=
  ⟨trimChars s.data⟩

/-- A character kept by the regex replacement `[^0-9a-zA-Z_]` → `""`:
ASCII alphanumeric or underscore. -/
def keptChar (c : Char) : Bool :=
  c.isAlphanum || c == '_'

/-- `.str.replace(' ', "_")` on one character: a literal, per-character
replacement — each space becomes its own underscore. -/
def spaceToUnderscore (c : Char) : Char :=
  if c == ' ' then '_' else c

/-- Column-name normalization of `clean_file` (Core.py lines 64-69):
strip, lowercase, replace each space character with an underscore, then
delete every character outside `[0-9a-zA-Z_]`. -/
def normalizeChars (cs : List Char) : List Char :=
  (((trimChars cs).map Char.toLower).map spaceToUnderscore).filter keptChar

/-- Column-name normalization on strings. -/
def normalizeName (s : String) : String :=
  ⟨normalizeChars s.data⟩

/-- Split a character list at every occurrence of `sep` (Python
`str.split(sep)`): `n` separators give `n+1` (possibly empty) parts. -/
def splitOnChar (sep : Char) : List Char → List (List Char)
  | [] => [[]]
  | c :: cs =>
    if c = sep then [] :: splitOnChar sep cs
    else
      match splitOnChar sep cs with
      | [] => [[c]]
      | r :: rs => (c :: r) :: rs

theorem length_dropWhile_le {α : Type} (p : α → Bool) (l : List α) :
    (l.dropWhile p).length ≤ l.length := by
  induction l with
  | nil => simp [List.dropWhile]
  | cons c cs ih =>
    by_cases h : p c
    · simpa [List.dropWhile, h] using Nat.le_succ_of_le ih
    · simp [List.dropWhile, h]

/-- Collapse each maximal run of whitespace into a single underscore;
the flag says whether the previous character was whitespace (so the run
already produced its underscore). -/
def collapseWsAux : Bool → List Char → List Char
  | _, [] => []
  | prevWs, c :: cs =>
    if c.isWhitespace then
      (if prevWs then [] else ['_']) ++ collapseWsAux true cs
    else c :: collapseWsAux false cs

/-- Collapse each maximal run of whitespace into a single underscore. -/
def collapseWs (cs : List Char) : List Char :=
  collapseWsAux false cs

/-- Modelled from the spec: the column-name normalization as the spec
words it, "replace internal whitespace runs with underscore" — a run of
whitespace becomes one single underscore (compare with `normalizeName`,
which is the code's per-character replacement). -/
def specNormalizeName (s : String) : String :=
  ⟨(collapseWs ((trimChars s.data).map Char.toLower)).filter keptChar⟩

/-! ## Value parsers

The spec treats date/numeric/duration parsing as a black box of the
underlying library (`pd.to_datetime`, `pd.to_numeric`,
`pd.to_timedelta`).  These are concrete executable models: a
`YYYY-MM-DD` date parser, a sign/digits/decimal-point numeric parser and
an `N days` duration parser.  Like the pandas parsers they accept
surrounding whitespace and reject short digit strings such as `"1"` as
dates. -/

/-- Digits-only string to its value; `none` if empty or non-digit. -/
def parseDigits (cs : List Char) : Option Nat :=
  if cs ≠ [] ∧ cs.all Char.isDigit then
    some (cs.foldl (fun a c => a * 10 + (c.toNat - 48)) 0)
  else none

/-- Model of `pd.to_datetime` on one value: accepts `YYYY-MM-DD`
(4-digit year, month 1-12, day 1-31), encoded as `y*10000+m*100+d`. -/
def parseDT (s : String) : Option Int :=
  match splitOnChar '-' (pyStrip s).data with
  | [y, m, d] =>
    match parseDigits y, parseDigits m, parseDigits d with
    | some yv, some mv, some dv =>
      if y.length = 4 ∧ 1 ≤ mv ∧ mv ≤ 12 ∧ 1 ≤ dv ∧ dv ≤ 31 then
        some (yv * 10000 + mv * 100 + dv)
      else none
    | _, _, _ => none
  | _ => none

/-- Unsigned numeric literal: digits with an optional fractional part
(`i.f` stands for the exact rational `(i·10^k + f) / 10^k`). -/
def parseUnsigned (cs : List Char) : Option ℚ :=
  match splitOnChar '.' cs with
  | [ip] => (parseDigits ip).map (fun n => mkRat n 1)
  | [ip, fp] =>
    match parseDigits ip, parseDigits fp with
    | some i, some f => some (mkRat (i * 10 ^ fp.length + f) (10 ^ fp.length))
    | _, _ => none
  | _ => none

/-- Model of `pd.to_numeric` on one value. -/
def parseNum (s : String) : Option ℚ :=
  match (pyStrip s).data with
  | '-' :: rest => (parseUnsigned rest).map (fun q => -q)
  | '+' :: rest => parseUnsigned rest
  | cs => parseUnsigned cs

/-- Model of `pd.to_timedelta` on one value: `N day`/`N days`. -/
def parseDur (s : String) : Option Int :=
  match splitOnChar ' ' (pyStrip s).data with
  | [n, u] =>
    if u = "days".data ∨ u = "day".data then (parseDigits n).map Int.ofNat
    else none
  | _ => none

/-! ## Type inference (`infer_and_convert_series`, Core.py lines 11-48) -/

/-- The inference sample: non-missing values whose stripped form is
non-blank (`s.dropna()` then `sample[sample.astype(str).str.strip() != '']`). -/
def sampleVals (vs : List (Option String)) : List String :=
  (vs.filterMap id).filter (fun v => pyStrip v ≠ "")

/-- `s.astype(str)` on one cell: pandas renders the missing marker as
the literal string `"nan"`. -/
def astypeStr : Option String → String
  | none => "nan"
  | some s => s

/-- `infer_and_convert_series`: a non-object column is returned
unchanged; otherwise try, on the sample, datetime then numeric then
timedelta, all-or-nothing, converting the full column with coercion
(unparseable/missing become the target's missing marker) on the first
success; if none succeeds, stringify and strip the column. -/
def inferAndConvertSeries : ColData → ColData
  | .obj vs =>
    let smp := sampleVals vs
    if smp.isEmpty then .obj vs
    else if smp.all (fun v => (parseDT v).isSome) then
      .dt (vs.map (fun o => o.bind parseDT))
    else if smp.all (fun v => (parseNum v).isSome) then
      .num (vs.map (fun o => o.bind parseNum))
    else if smp.all (fun v => (parseDur v).isSome) then
      .dur (vs.map (fun o => o.bind parseDur))
    else .obj (vs.map (fun o => some (pyStrip (astypeStr o))))
  | d => d

/-! ## Deduplication (`df.drop_duplicates()`, Core.py line 61) -/

/-- Number of rows of a table (length of its first column). -/
def nRows : Table → Nat
  | [] => 0
  | c :: _ => c.data.length

/-- Row `j` of a table, as the list of its tagged cells. -/
def rowAt (t : Table) (j : Nat) : List Value :=
  t.map (fun c => c.data.elem j)

/-- All rows of a table, in order. -/
def rowsOf (t : Table) : List (List Value) :=
  (List.range (nRows t)).map (rowAt t)

/-- Indices whose element has no earlier equal element: the rows
`drop_duplicates()` keeps (keep-first semantics, missing markers
comparing equal). -/
def firstOccIdx {α : Type} [DecidableEq α] (xs : List α) : List Nat :=
  (List.range xs.length).filter
    (fun j => (List.range j).all (fun k => decide (¬ xs[k]? = xs[j]?)))

/-- Keep-first deduplication of a list: keep the head, drop its later
duplicates, recurse. -/
def keepFirst {α : Type} [DecidableEq α] : List α → List α
  | [] => []
  | x :: xs => x :: keepFirst (xs.filter (fun y => decide (¬ y = x)))
termination_by l => l.length
decreasing_by
  exact Nat.lt_succ_of_le (List.length_filter_le _ _)

/-- The row indices `drop_duplicates()` keeps. -/
def keptIndices (t : Table) : List Nat :=
  firstOccIdx (rowsOf t)

/-- `df.drop_duplicates()`: keep, in each column, exactly the rows with
no earlier duplicate row. -/
def dropDuplicates (t : Table) : Table :=
  t.map (fun c => { c with data := c.data.select (keptIndices t) })

/-! ## Null policy (`clean_file` fill step, Core.py lines 76-83) -/

/-- The per-column fill of `clean_file`: numeric missing becomes `0`;
a datetime column is filled with `NaT`, which is its own missing marker,
so it is returned unchanged; every other column is filled with the
string `"unknown"` — on an `object` column that fills the markers, while
on a `timedelta64` column pandas rejects a string fill value, which is
modelled as failure. -/
def fillMissingCol : ColData → Option ColData
  | .num vs => some (.num (vs.map (fun o => some (o.getD 0))))
  | .dt vs => some (.dt vs)
  | .obj vs => some (.obj (vs.map (fun o => some (o.getD "unknown"))))
  | .dur vs => if vs.any Option.isNone then none else some (.dur vs)

/-- The fill loop over the table's columns; the first failing fill
aborts (the raised `TypeError` propagates out of `clean_file`). -/
def fillTable : Table → Option Table
  | [] => some []
  | c :: cs =>
    match fillMissingCol c.data, fillTable cs with
    | some d, some rest => some ({ c with data := d } :: rest)
    | _, _ => none

/-- The cleaning pipeline of `clean_file` after the load (Core.py lines
58-85): copy, drop duplicate rows, normalize the column names, infer and
convert each object column, fill the missing values. -/
def cleanTable (t : Table) : Option Table :=
  let t1 := dropDuplicates t
  let t2 := t1.map (fun c => { c with name := normalizeName c.name })
  let t3 := t2.map (fun c => { c with data := inferAndConvertSeries c.data })
  fillTable t3

/-! ## Correlation pruning (`find_similar_col_to_remove`, Core.py 128-147) -/

/-- The numeric columns of a table, in order, with their names:
the columns `df.corr()` correlates. -/
def numericCols (t : Table) : List (String × List (Option ℚ)) :=
  t.filterMap (fun c =>
    match c.data with
    | .num vs => some (c.name, vs)
    | _ => none)

/-- The rows where both columns have a value (pandas correlates
pairwise-complete observations). -/
def completePairs (xs ys : List (Option ℚ)) : List (ℚ × ℚ) :=
  (xs.zip ys).filterMap (fun p =>
    match p with
    | (some a, some b) => some (a, b)
    | _ => none)

/-- Rational addition on the normalized representation (`mkRat`
renormalizes), written out so that it evaluates by kernel reduction. -/
def qAdd (a b : ℚ) : ℚ :=
  mkRat (a.num * b.den + b.num * a.den) (a.den * b.den)

/-- Rational multiplication, normalized via `mkRat`. -/
def qMul (a b : ℚ) : ℚ :=
  mkRat (a.num * b.num) (a.den * b.den)

/-- Rational subtraction, normalized via `mkRat`. -/
def qSub (a b : ℚ) : ℚ :=
  mkRat (a.num * b.den - b.num * a.den) (a.den * b.den)

/-- `a < b` by cross-multiplication (denominators are positive). -/
def qLt (a b : ℚ) : Bool :=
  decide (a.num * (b.den : Int) < b.num * (a.den : Int))

/-- Sum of a list of rationals. -/
def qSum (l : List ℚ) : ℚ :=
  l.foldr qAdd (mkRat 0 1)

/-- `|pearson(xs, ys)| > 0.95`, square-root free: with centred sums
`cov = nΣxy - ΣxΣy`, `vx = nΣx² - (Σx)²`, `vy = nΣy² - (Σy)²` the test
is `cov² > 0.95² · vx · vy` (with `0.95² = 361/400`).  When a column is
constant (`vx = 0` or `vy = 0`) pandas' correlation is `NaN` and
`NaN > 0.95` is false; here Cauchy-Schwarz gives `cov = 0`, so the
strict test is false as well. -/
def corrAbsGt95 (xs ys : List (Option ℚ)) : Bool :=
  let ps := completePairs xs ys
  let n : ℚ := mkRat ps.length 1
  let sx := qSum (ps.map Prod.fst)
  let sy := qSum (ps.map Prod.snd)
  let sxy := qSum (ps.map (fun p => qMul p.1 p.2))
  let sxx := qSum (ps.map (fun p => qMul p.1 p.1))
  let syy := qSum (ps.map (fun p => qMul p.2 p.2))
  let cov := qSub (qMul n sxy) (qMul sx sy)
  let vx := qSub (qMul n sxx) (qMul sx sx)
  let vy := qSub (qMul n syy) (qMul sy sy)
  qLt (qMul (mkRat 361 400) (qMul vx vy)) (qMul cov cov)

/-- Walk the numeric columns left to right; a column is marked when its
absolute correlation with some earlier numeric column exceeds 0.95 (the
strict upper triangle of `df.corr().abs()`). -/
def toDropAux : List (String × List (Option ℚ)) → List (List (Option ℚ)) →
    List String
  | [], _ => []
  | (name, vs) :: rest, earlier =>
    (if earlier.any (fun ws => corrAbsGt95 ws vs) then [name] else []) ++
      toDropAux rest (earlier ++ [vs])

/-- The column labels `find_similar_col_to_remove` marks for removal. -/
def toDrop (t : Table) : List String :=
  toDropAux (numericCols t) []

/-- `find_similar_col_to_remove` applied to a loaded table: drop every
column whose label is marked. -/
def find_similar_col_to_remove (t : Table) : Table :=
  t.filter (fun c => decide (¬ c.name ∈ toDrop t))

/-! ## The file loader (`FileLoader.py`)

The file system is a map from paths to (readability, raw bytes); the
format sniffing plus format-specific parsing (`detect_file_type` and the
`load_csv`/`load_excel`/`load_json` dispatch of `load_file`, black boxes
built on `magic` and pandas readers) is a parameter
`parse : List Nat → Option Table`.  The process state carries the
`lru_cache` content and counters for how often the digest and the parser
have run, so that "no re-hash / no re-parse" is a statement about the
returned state. -/

/-- What the file system knows about one path. -/
structure FileRec where
  readable : Bool
  bytes : List Nat

/-- The file system seen by `os.path.exists` / `os.access` / `open`. -/
structure FS where
  files : String → Option FileRec

/-- The loader's error taxonomy (`FileNotFoundError`, `PermissionError`,
and the per-format wrapper raised by `load_csv`/`load_excel`/
`load_json`). -/
inductive LoadErr where
  | notFound (p : String)
  | notReadable (p : String)
  | loadError (p : String)
deriving DecidableEq

/-- `validate_file` (FileLoader.py lines 51-56): `NotFound` when the
path does not exist, `NotReadable` when it lacks read permission. -/
def validate_file (fs : FS) (p : String) : Except LoadErr Unit :=
  match fs.files p with
  | none => .error (.notFound p)
  | some rec => if rec.readable then .ok () else .error (.notReadable p)

/-- Model of `get_file_hash` (streamed md5): a concrete digest over the
byte list, used purely as a deterministic function of the content. -/
def md5Digest (bs : List Nat) : Nat :=
  bs.foldl (fun h b => (h * 131 + b % 256) % 2 ^ 128) 5381

/-- `lru_cache(maxsize=32)` capacity. -/
def CACHE_CAP : Nat := 32

/-- One cache key: `(file_path, file_hash)`. -/
abbrev CacheKey := String × Nat

/-- Process-wide state: the LRU cache (most recent first) and the two
effect counters. -/
structure LoadState where
  cache : List (CacheKey × Table)
  parseCount : Nat
  hashCount : Nat
deriving DecidableEq

/-- The state at process start: empty cache, nothing parsed or hashed. -/
def initState : LoadState := ⟨[], 0, 0⟩

/-- Look a key up in the LRU cache; a hit moves the entry to the
front. -/
def lruGet (cache : List (CacheKey × Table)) (k : CacheKey) :
    Option (Table × List (CacheKey × Table)) :=
  match cache.find? (fun e => decide (e.1 = k)) with
  | none => none
  | some e => some (e.2, e :: cache.filter (fun e' => decide (¬ e'.1 = k)))

/-- Insert at the front and evict beyond the fixed capacity (the entry
at the back is the least recently used). -/
def lruPut (cache : List (CacheKey × Table)) (k : CacheKey) (tbl : Table) :
    List (CacheKey × Table) :=
  ((k, tbl) :: cache.filter (fun e => decide (¬ e.1 = k))).take CACHE_CAP

/-- `load_file` (FileLoader.py lines 101-111): validate, then detect the
format and dispatch to the format-specific parser (the `parse`
parameter); every call that reaches the dispatch counts as one parser
invocation.  A parser failure is the wrapped per-format load error. -/
def load_file (parse : List Nat → Option Table) (fs : FS) (p : String)
    (st : LoadState) : Except LoadErr Table × LoadState :=
  match validate_file fs p with
  | .error e => (.error e, st)
  | .ok () =>
    match fs.files p with
    | none => (.error (.notFound p), st)
    | some rec =>
      let st' : LoadState := { st with parseCount := st.parseCount + 1 }
      match parse rec.bytes with
      | some t => (.ok t, st')
      | none => (.error (.loadError p), st')

/-- `load_file_cached` (FileLoader.py lines 94-98): the `lru_cache`d
wrapper keyed by `(file_path, file_hash)`; a hit returns the stored
table without re-parsing, a miss parses and stores. -/
def load_file_cached (parse : List Nat → Option Table) (fs : FS)
    (p : String) (h : Nat) (st : LoadState) :
    Except LoadErr Table × LoadState :=
  match lruGet st.cache (p, h) with
  | some (t, c') => (.ok t, { st with cache := c' })
  | none =>
    match load_file parse fs p st with
    | (.ok t, st') => (.ok t, { st' with cache := lruPut st'.cache (p, h) t })
    | (.error e, st') => (.error e, st')

/-- `smart_load` with the default `use_cache=True` (FileLoader.py lines
113-129): validate first, then hash the content (one digest per call),
then go through the cache. -/
def smart_load (parse : List Nat → Option Table) (fs : FS) (p : String)
    (st : LoadState) : Except LoadErr Table × LoadState :=
  match validate_file fs p with
  | .error e => (.error e, st)
  | .ok () =>
    match fs.files p with
    | none => (.error (.notFound p), st)
    | some rec =>
      let st' : LoadState := { st with hashCount := st.hashCount + 1 }
      load_file_cached parse fs p (md5Digest rec.bytes) st'

/-- Errors out of `clean_file`: a load failure, or the fill step's
type error (a string fill on a timedelta column). -/
inductive CleanErr where
  | load (e : LoadErr)
  | fillTypeError
deriving DecidableEq

/-- `clean_file` (Core.py lines 51-88): `smart_load`, then the cleaning
pipeline on a copy of the loaded table (`df = df.copy()` — the cached
object is not touched; here the state's cache passes through
unchanged). -/
def clean_file (parse : List Nat → Option Table) (fs : FS) (p : String)
    (st : LoadState) : Except CleanErr Table × LoadState :=
  match smart_load parse fs p st with
  | (.error e, st') => (.error (.load e), st')
  | (.ok t, st') =>
    match cleanTable t with
    | some ct => (.ok ct, st')
    | none => (.error .fillTypeError, st')

/-! ## Schema validation and batch loading (`FileLoader.py` 58-64, 155-163) -/

/-- `SchemaError`, with the data its message names: the missing column,
or the column with its expected and actual dtype strings. -/
inductive SchemaErr where
  | missingColumn (col : String)
  | typeMismatch (col expected actual : String)
deriving DecidableEq

/-- `str(series.dtype)` for each column kind: a numeric column is
`int64` when complete and integral, `float64` otherwise (missing values
force floats). -/
def dtypeStr : ColData → String
  | .obj _ => "object"
  | .num vs =>
    if vs.all (fun o => o.isSome ∧ (o.getD 0).den = 1) then "int64"
    else "float64"
  | .dt _ => "datetime64[ns]"
  | .dur _ => "timedelta64[ns]"

/-- `df[column]` lookup (`column in df.columns` plus access). -/
def findCol (t : Table) (name : String) : Option Col :=
  t.find? (fun c => decide (c.name = name))

/-- `validate_schema` (FileLoader.py lines 58-64): walk the schema's
(column, expected dtype) entries; a missing column or a dtype mismatch
raises `SchemaError` naming the column (and for a mismatch the expected
and actual types). -/
def validate_schema (t : Table) : List (String × String) → Except SchemaErr Unit
  | [] => .ok ()
  | (col, ty) :: rest =>
    match findCol t col with
    | none => .error (.missingColumn col)
    | some c =>
      if dtypeStr c.data = ty then validate_schema t rest
      else .error (.typeMismatch col ty (dtypeStr c.data))

/-- A batch failure: the first file's load error or schema error. -/
inductive BatchErr where
  | load (e : LoadErr)
  | schema (e : SchemaErr)
deriving DecidableEq

/-- `load_files` (FileLoader.py lines 155-163): load each path with
`smart_load`, validate against the schema when one is supplied, collect
the per-path tables; the first failure aborts the whole batch. -/
def load_files (parse : List Nat → Option Table) (fs : FS)
    (schema : Option (List (String × String))) :
    List String → LoadState → Except BatchErr (List (String × Table)) × LoadState
  | [], st => (.ok [], st)
  | p :: ps, st =>
    match smart_load parse fs p st with
    | (.error e, st') => (.error (.load e), st')
    | (.ok t, st') =>
      match schema with
      | some sch =>
        match validate_schema t sch with
        | .error e => (.error (.schema e), st')
        | .ok () =>
          match load_files parse fs (some sch) ps st' with
          | (.ok rest, st'') => (.ok ((p, t) :: rest), st'')
          | (.error e, st'') => (.error e, st'')
      | none =>
        match load_files parse fs none ps st' with
        | (.ok rest, st'') => (.ok ((p, t) :: rest), st'')
        | (.error e, st'') => (.error e, st'')

/-! ## Concrete fixtures

Small tables and one-file file systems used to evaluate the pipeline at
concrete inputs. -/

/-- The correlation-pruning test table of `Tests.py`:
`A=[1,2,3,4,5]`, `B=[2,4,6,8,10]`, `C=[5,3,1,0,-1]`. -/
def abcT : Table :=
  [⟨"A", .num [some 1, some 2, some 3, some 4, some 5]⟩,
   ⟨"B", .num [some 2, some 4, some 6, some 8, some 10]⟩,
   ⟨"C", .num [some 5, some 3, some 1, some 0, some (-1)]⟩]

/-- A raw loaded table with a parseable date column holding a missing
value and an unparseable string column holding a missing value. -/
def ex1T : Table :=
  [⟨"d", .obj [some "2020-01-01", none]⟩, ⟨"s", .obj [some "x", none]⟩]

/-- One-file parser: byte content `[1]` parses to `ex1T`. -/
def parse1 (bs : List Nat) : Option Table :=
  if bs = [1] then some ex1T else none

/-- One-file file system for `parse1`. -/
def fs1 : FS :=
  ⟨fun p => if p = "data.csv" then some ⟨true, [1]⟩ else none⟩

/-- What cleaning `ex1T` produces: the date column keeps its `NaT`
and the string column's missing value became the string `"nan"`. -/
def ct1 : Table :=
  [⟨"d", .dt [some 20200101, none]⟩, ⟨"s", .obj [some "x", some "nan"]⟩]

/-- A table with two byte-identical rows. -/
def ex7T : Table := [⟨"a", .obj [some "x", some "x"]⟩]

/-- A numeric table with a missing value (for the null-policy witness). -/
def exW1 : Table := [⟨"n", .num [some 1, none]⟩]

/-- A loaded table whose `age` column has dtype `object`. -/
def ageT : Table := [⟨"age", .obj [some "x"]⟩]

/-- One-file parser: byte content `[2]` parses to `ageT`. -/
def parse9 (bs : List Nat) : Option Table :=
  if bs = [2] then some ageT else none

/-- One-file file system for `parse9`. -/
def fs9 : FS :=
  ⟨fun p => if p = "people.csv" then some ⟨true, [2]⟩ else none⟩

/-- A one-column, one-row table for the cache fixtures. -/
def t5 : Table := [⟨"x", .num [some 1]⟩]

/-- One-file parser: byte content `[3]` parses to `t5`. -/
def parse5 (bs : List Nat) : Option Table :=
  if bs = [3] then some t5 else none

/-- One-file file system for `parse5`. -/
def fs5 : FS :=
  ⟨fun p => if p = "a.csv" then some ⟨true, [3]⟩ else none⟩

/-- A file system with no files at all. -/
def fsNone : FS := ⟨fun _ => none⟩

/-! # Shared lemmas -/

theorem map_eq_self_of {α : Type} (f : α → α) (l : List α)
    (h : ∀ c ∈ l, f c = c) : l.map f = l := by
  induction l with
  | nil => rfl
  | cons c cs ih =>
    rw [List.map_cons, h c (List.mem_cons_self c cs),
      ih (fun d hd => h d (List.mem_cons_of_mem c hd))]

theorem filter_eq_self_of {α : Type} (p : α → Bool) (l : List α)
    (h : ∀ c ∈ l, p c = true) : l.filter p = l := by
  induction l with
  | nil => rfl
  | cons c cs ih =>
    rw [List.filter_cons_of_pos (h c (List.mem_cons_self c cs)),
      ih (fun d hd => h d (List.mem_cons_of_mem c hd))]

theorem dropWhile_eq_self_of {α : Type} (p : α → Bool) (l : List α)
    (h : ∀ c ∈ l, p c = false) : l.dropWhile p = l := by
  cases l with
  | nil => rfl
  | cons c cs =>
    simp [List.dropWhile_cons, h c (List.mem_cons_self c cs)]

theorem trimChars_eq_self_of (l : List Char)
    (h : ∀ c ∈ l, c.isWhitespace = false) : trimChars l = l := by
  unfold trimChars
  rw [dropWhile_eq_self_of _ _ h,
    dropWhile_eq_self_of _ _ (fun c hc => h c (List.mem_reverse.mp hc)),
    List.reverse_reverse]

theorem toNat_ofNat_of_valid (n : Nat) (h : n.isValidChar) :
    (Char.ofNat n).toNat = n := by
  unfold Char.ofNat
  rw [dif_pos h]
  rfl

theorem toLower_not_upper (c : Char) :
    ¬ (65 ≤ (Char.toLower c).toNat ∧ (Char.toLower c).toNat ≤ 90) := by
  have hdef : Char.toLower c =
      if c.toNat ≥ 65 ∧ c.toNat ≤ 90 then Char.ofNat (c.toNat + 32) else c := rfl
  by_cases h : c.toNat ≥ 65 ∧ c.toNat ≤ 90
  · rw [hdef, if_pos h, toNat_ofNat_of_valid _ (Or.inl (by omega))]
    omega
  · rw [hdef, if_neg h]
    exact h

theorem toLower_eq_self (c : Char)
    (h : ¬ (65 ≤ c.toNat ∧ c.toNat ≤ 90)) : Char.toLower c = c := by
  have hdef : Char.toLower c =
      if c.toNat ≥ 65 ∧ c.toNat ≤ 90 then Char.ofNat (c.toNat + 32) else c := rfl
  rw [hdef, if_neg h]

theorem spaceToUnderscore_not_upper (c : Char)
    (h : ¬ (65 ≤ c.toNat ∧ c.toNat ≤ 90)) :
    ¬ (65 ≤ (spaceToUnderscore c).toNat ∧ (spaceToUnderscore c).toNat ≤ 90) := by
  unfold spaceToUnderscore
  by_cases hc : (c == ' ') = true
  · rw [if_pos hc]
    decide
  · rw [if_neg hc]
    exact h

theorem spaceToUnderscore_eq_self (c : Char) (h : c ≠ ' ') :
    spaceToUnderscore c = c := by
  unfold spaceToUnderscore
  rw [if_neg]
  simpa using h

theorem keptChar_ne_space (c : Char) (h : keptChar c = true) : c ≠ ' ' := by
  intro he
  subst he
  exact absurd h (by decide)

theorem keptChar_not_whitespace (c : Char) (h : keptChar c = true) :
    c.isWhitespace = false := by
  by_contra hw
  rw [Bool.not_eq_false] at hw
  have hcases : ((c = ' ' ∨ c = '\t') ∨ c = '\x0d') ∨ c = '\n' := by
    simpa [Char.isWhitespace, Bool.or_eq_true, decide_eq_true_eq] using hw
  rcases hcases with ((h1 | h1) | h1) | h1 <;> subst h1 <;> exact absurd h (by decide)

theorem normalizeChars_kept (cs : List Char) :
    ∀ c ∈ normalizeChars cs, keptChar c = true := by
  intro c hc
  exact List.of_mem_filter hc

theorem normalizeChars_not_upper (cs : List Char) :
    ∀ c ∈ normalizeChars cs, ¬ (65 ≤ c.toNat ∧ c.toNat ≤ 90) := by
  intro c hc
  have h2 : c ∈ ((trimChars cs).map Char.toLower).map spaceToUnderscore :=
    List.mem_of_mem_filter hc
  obtain ⟨c1, hc1, rfl⟩ := List.mem_map.mp h2
  obtain ⟨c0, _, rfl⟩ := List.mem_map.mp hc1
  exact spaceToUnderscore_not_upper _ (toLower_not_upper c0)

theorem normalizeChars_idem (cs : List Char) :
    normalizeChars (normalizeChars cs) = normalizeChars cs := by
  have key : ∀ l : List Char, normalizeChars l =
      (((trimChars l).map Char.toLower).map spaceToUnderscore).filter keptChar :=
    fun _ => rfl
  have hkept := normalizeChars_kept cs
  have hupper := normalizeChars_not_upper cs
  rw [key (normalizeChars cs),
    trimChars_eq_self_of _ (fun c hc => keptChar_not_whitespace c (hkept c hc)),
    map_eq_self_of Char.toLower _ (fun c hc => toLower_eq_self c (hupper c hc)),
    map_eq_self_of spaceToUnderscore _
      (fun c hc => spaceToUnderscore_eq_self c (keptChar_ne_space c (hkept c hc))),
    filter_eq_self_of keptChar _ hkept]

/-! # Claim theorems -/

/-- C6, counterexample: the code replaces each space character
separately, so the two-space name `"a  b"` normalizes to `"a__b"`,
while the claimed run-collapsing normalization (`specNormalizeName`)
gives `"a_b"`: the claim's description of the function is false. -/
theorem claim6_counterexample :
    normalizeName "a  b" = "a__b" ∧ specNormalizeName "a  b" = "a_b" ∧
      normalizeName "a  b" ≠ specNormalizeName "a  b" :=
  ⟨by decide, by decide, by decide⟩

/-- C6, amended: column-name normalization strips, lowercases, replaces
each internal space character with its own underscore (a run of k
spaces becomes k underscores; other whitespace is deleted by the
character filter), then removes every character outside
`[0-9a-zA-Z_]`; `" Date Joined "` normalizes to `"date_joined"`, and
the function is idempotent. -/
theorem claim6_normalization :
    normalizeName " Date Joined " = "date_joined" ∧
    normalizeName "a  b" = "a__b" ∧ normalizeName "a\tb" = "ab" ∧
    ∀ s : String, normalizeName (normalizeName s) = normalizeName s := by
  refine ⟨by decide, by decide, by decide, fun s => ?_⟩
  show (⟨normalizeChars (normalizeChars s.data)⟩ : String) = ⟨normalizeChars s.data⟩
  exact congrArg String.mk (normalizeChars_idem s.data)

/-- C3, counterexample: at the claim's own input the eliminator drops
column C as well (its absolute correlation with A is 15/√232 ≈ 0.985 >
0.95), so the returned table does not retain C. -/
theorem claim3_counterexample :
    (find_similar_col_to_remove abcT).map Col.name = ["A"] ∧
      ¬ "C" ∈ (find_similar_col_to_remove abcT).map Col.name :=
  ⟨by decide, by decide⟩

/-- C3, amended: at threshold 0.95 on columns A=[1,2,3,4,5],
B=[2,4,6,8,10], C=[5,3,1,0,-1], the eliminator marks both B and C
(each has absolute correlation with the earlier column A strictly above
0.95) and returns the table with only A; a column is marked iff its
absolute pairwise correlation with some earlier-indexed column strictly
exceeds the threshold, over the strict upper triangle, and all marked
columns are removed in one pass. -/
theorem claim3_pruning_result :
    toDrop abcT = ["B", "C"] ∧
    find_similar_col_to_remove abcT =
      [⟨"A", .num [some 1, some 2, some 3, some 4, some 5]⟩] :=
  ⟨by decide, by decide⟩

theorem missingCount_map_some {α : Type} (f : Option α → α)
    (vs : List (Option α)) :
    ((vs.map (fun o => some (f o))).filter Option.isNone).length = 0 := by
  induction vs with
  | nil => rfl
  | cons v vs ih => simp [ih]

theorem missingCount_of_not_any_none {α : Type} (vs : List (Option α))
    (h : vs.any Option.isNone = false) :
    (vs.filter Option.isNone).length = 0 := by
  induction vs with
  | nil => rfl
  | cons v vs ih =>
    rw [List.any_cons, Bool.or_eq_false_iff] at h
    simp [List.filter_cons, h.1, ih h.2]

theorem fillMissingCol_no_missing (d d' : ColData)
    (h : fillMissingCol d = some d') (hdt : d'.isDt = false) :
    d'.missingCount = 0 := by
  cases d with
  | obj vs =>
    rw [fillMissingCol] at h
    cases h
    exact missingCount_map_some _ vs
  | num vs =>
    rw [fillMissingCol] at h
    cases h
    exact missingCount_map_some _ vs
  | dt vs =>
    rw [fillMissingCol] at h
    cases h
    exact absurd hdt (by simp [ColData.isDt])
  | dur vs =>
    rw [fillMissingCol] at h
    by_cases hany : vs.any Option.isNone
    · rw [if_pos hany] at h
      exact absurd h (by simp)
    · rw [if_neg hany] at h
      cases h
      exact missingCount_of_not_any_none vs (Bool.not_eq_true _ ▸ hany)

theorem fillTable_no_missing :
    ∀ (l l' : Table), fillTable l = some l' →
      ∀ c ∈ l', c.data.isDt = false → c.data.missingCount = 0 := by
  intro l
  induction l with
  | nil =>
    intro l' h c hc
    rw [fillTable] at h
    cases h
    exact absurd hc (by simp)
  | cons a as ih =>
    intro l' h c hc hdt
    rw [fillTable] at h
    cases hfa : fillMissingCol a.data with
    | none => rw [hfa] at h; exact absurd h (by simp)
    | some d =>
      cases hrest : fillTable as with
      | none => rw [hfa, hrest] at h; exact absurd h (by simp)
      | some rest =>
        rw [hfa, hrest] at h
        cases h
        rcases List.mem_cons.mp hc with hc | hc
        · subst hc
          exact fillMissingCol_no_missing a.data _ hfa hdt
        · exact ih rest hrest c hc hdt

theorem totalMissing_eq_dt_sum (ct : Table)
    (h0 : ∀ c ∈ ct, c.data.isDt = false → c.data.missingCount = 0) :
    totalMissing ct =
      ((ct.filter (fun c => c.data.isDt)).map
        (fun c => c.data.missingCount)).sum := by
  induction ct with
  | nil => rfl
  | cons c cs ih =>
    have ihh := ih (fun d hd hdt => h0 d (List.mem_cons_of_mem c hd) hdt)
    unfold totalMissing at ihh ⊢
    cases hdt : c.data.isDt with
    | false =>
      rw [List.map_cons, List.sum_cons,
        h0 c (List.mem_cons_self c cs) hdt, List.filter_cons_of_neg (by simp [hdt]),
        ihh, Nat.zero_add]
    | true =>
      rw [List.map_cons, List.sum_cons, List.filter_cons_of_pos (by simp [hdt]),
        List.map_cons, List.sum_cons, ihh]

/-- C1, counterexample: cleaning a file whose date column has a missing
value leaves that marker in place (`fillna(pd.NaT)` fills the datetime
missing marker with itself), and the unparseable string column's missing
value was stringified to `"nan"` by the inference fallthrough rather
than filled with `"unknown"` — the cleaned table's missing count is 1,
not 0. -/
theorem claim1_counterexample :
    (clean_file parse1 fs1 "data.csv" initState).1 = .ok ct1 ∧
    totalMissing ct1 = 1 ∧
    findCol ct1 "s" = some ⟨"s", .obj [some "x", some "nan"]⟩ :=
  ⟨rfl, by decide, by decide⟩

/-- C1, amended: in a successfully cleaned table every column that is
not datetime-typed has no missing values left (numeric missing became 0,
object-column missing became a string — `"unknown"` for columns skipped
by inference, `"nan"` for stringified fallthrough columns — and a
duration column only cleans when it had none), so the total count of
missing markers equals the number of missing values in the
datetime-typed columns; it is 0 exactly when those columns are
complete. -/
theorem claim1_missing_after_clean (t ct : Table)
    (h : cleanTable t = some ct) :
    (∀ c ∈ ct, c.data.isDt = false → c.data.missingCount = 0) ∧
    totalMissing ct =
      ((ct.filter (fun c => c.data.isDt)).map
        (fun c => c.data.missingCount)).sum := by
  have h' : fillTable ((dropDuplicates t).map
      (fun c => { c with name := normalizeName c.name }) |>.map
      (fun c => { c with data := inferAndConvertSeries c.data })) = some ct := h
  have h0 := fillTable_no_missing _ ct h'
  exact ⟨h0, totalMissing_eq_dt_sum ct h0⟩

/-- C1, witness: the amended theorem applied to the one-column numeric
table `exW1`, whose missing value the cleaner fills with 0. -/
theorem claim1_witness :
    totalMissing [(⟨"n", .num [some 1, some 0]⟩ : Col)] =
      (([(⟨"n", .num [some 1, some 0]⟩ : Col)].filter
        (fun c => c.data.isDt)).map (fun c => c.data.missingCount)).sum :=
  (claim1_missing_after_clean exW1 [⟨"n", .num [some 1, some 0]⟩] (by decide)).2

/-- C8: when the path does not exist `smart_load` fails with `NotFound`,
and when it exists but is unreadable it fails with `NotReadable`; in
both cases the state comes back untouched — the content digest was
never computed (`hashCount` unchanged) and no parser ran (`parseCount`
unchanged), and the single call raises at first detection without any
retry. -/
theorem claim8_validation_before_load (parse : List Nat → Option Table)
    (fs : FS) (p : String) (st : LoadState) :
    (fs.files p = none →
      smart_load parse fs p st = (.error (.notFound p), st)) ∧
    (∀ rec, fs.files p = some rec → rec.readable = false →
      smart_load parse fs p st = (.error (.notReadable p), st)) := by
  constructor
  · intro h
    simp [smart_load, validate_file, h]
  · intro rec h hr
    simp [smart_load, validate_file, h, hr]

/-- C8, witness: loading a missing path from the empty file system. -/
theorem claim8_witness :
    smart_load parse5 fsNone "missing.csv" initState =
      (.error (.notFound "missing.csv"), initState) :=
  (claim8_validation_before_load parse5 fsNone "missing.csv" initState).1 rfl

theorem validate_schema_ok_iff (t : Table) :
    ∀ sch : List (String × String), (validate_schema t sch = .ok () ↔
      ∀ p ∈ sch, ∃ c, findCol t p.1 = some c ∧ dtypeStr c.data = p.2) := by
  intro sch
  induction sch with
  | nil => simp [validate_schema]
  | cons q rest ih =>
    obtain ⟨col, ty⟩ := q
    unfold validate_schema
    cases hf : findCol t col with
    | none =>
      constructor
      · intro he
        exact absurd he (by simp)
      · intro hall
        obtain ⟨c', hc', _⟩ := hall (col, ty) (List.mem_cons_self _ _)
        rw [hf] at hc'
        exact absurd hc' (by simp)
    | some c =>
      dsimp only
      by_cases hd : dtypeStr c.data = ty
      · rw [if_pos hd, ih]
        constructor
        · intro hall p hp
          rcases List.mem_cons.mp hp with rfl | hp
          · exact ⟨c, hf, hd⟩
          · exact hall p hp
        · intro hall p hp
          exact hall p (List.mem_cons_of_mem _ hp)
      · rw [if_neg hd]
        constructor
        · intro he
          exact absurd he (by simp)
        · intro hall
          obtain ⟨c', hc', hd'⟩ := hall (col, ty) (List.mem_cons_self _ _)
          rw [hf] at hc'
          cases hc'
          exact absurd hd' hd

theorem validate_schema_error_sound (t : Table) :
    ∀ (sch : List (String × String)) (e : SchemaErr),
      validate_schema t sch = .error e →
      (∃ col ty, e = .missingColumn col ∧ (col, ty) ∈ sch ∧
        findCol t col = none) ∨
      (∃ col exp act c, e = .typeMismatch col exp act ∧ (col, exp) ∈ sch ∧
        findCol t col = some c ∧ dtypeStr c.data = act ∧ act ≠ exp) := by
  intro sch
  induction sch with
  | nil =>
    intro e h
    exact absurd h (by simp [validate_schema])
  | cons q rest ih =>
    obtain ⟨col, ty⟩ := q
    intro e h
    unfold validate_schema at h
    cases hf : findCol t col with
    | none =>
      rw [hf] at h
      cases h
      exact Or.inl ⟨col, ty, rfl, List.mem_cons_self _ _, hf⟩
    | some c =>
      rw [hf] at h
      dsimp only at h
      by_cases hd : dtypeStr c.data = ty
      · rw [if_pos hd] at h
        rcases ih e h with ⟨col', ty', he, hm, hn⟩ |
          ⟨col', exp, act, c', he, hm, hfc, hda, hne⟩
        · exact Or.inl ⟨col', ty', he, List.mem_cons_of_mem _ hm, hn⟩
        · exact Or.inr
            ⟨col', exp, act, c', he, List.mem_cons_of_mem _ hm, hfc, hda, hne⟩
      · rw [if_neg hd] at h
        cases h
        exact Or.inr
          ⟨col, ty, dtypeStr c.data, c, rfl, List.mem_cons_self _ _, hf, rfl, hd⟩

/-- C9: a schema entry that no column of the table satisfies (the column
is missing, or present with a different dtype) makes `validate_schema`
raise a `SchemaError`; every raised error names a genuinely offending
column, with the expected and the actual dtype on a mismatch; the
concrete schema `age : int64` against an `object` column raises
`SchemaError` naming `age`, both directly and through the batch loader
`load_files`. -/
theorem claim9_schema_validation :
    (∀ (t : Table) (sch : List (String × String)) (p : String × String),
      p ∈ sch → (∀ c, findCol t p.1 = some c → dtypeStr c.data ≠ p.2) →
      ∃ e, validate_schema t sch = .error e) ∧
    (∀ (t : Table) (sch : List (String × String)) (e : SchemaErr),
      validate_schema t sch = .error e →
      (∃ col ty, e = .missingColumn col ∧ (col, ty) ∈ sch ∧
        findCol t col = none) ∨
      (∃ col exp act c, e = .typeMismatch col exp act ∧ (col, exp) ∈ sch ∧
        findCol t col = some c ∧ dtypeStr c.data = act ∧ act ≠ exp)) ∧
    validate_schema ageT [("age", "int64")] =
      .error (.typeMismatch "age" "int64" "object") ∧
    (load_files parse9 fs9 (some [("age", "int64")]) ["people.csv"]
      initState).1 =
      .error (.schema (.typeMismatch "age" "int64" "object")) := by
  refine ⟨?_, validate_schema_error_sound, rfl, rfl⟩
  intro t sch p hp hbad
  cases hv : validate_schema t sch with
  | ok u =>
    cases u
    obtain ⟨c, hc, hdt⟩ := (validate_schema_ok_iff t sch).mp hv p hp
    exact absurd hdt (hbad c hc)
  | error e => exact ⟨e, rfl⟩

/-- C9, witness: the raise-on-mismatch direction applied to the concrete
`age : int64` schema against the `object`-typed `age` column. -/
theorem claim9_witness :
    ∃ e, validate_schema ageT [("age", "int64")] = Except.error e :=
  claim9_schema_validation.1 ageT [("age", "int64")] ("age", "int64")
    (List.mem_cons_self _ _)
    (by
      intro c hc
      have h2 : findCol ageT "age" = some (⟨"age", .obj [some "x"]⟩ : Col) := rfl
      rw [h2] at hc
      cases hc
      decide)

theorem smart_load_fresh (parse : List Nat → Option Table) (fs : FS)
    (p : String) (rec : FileRec) (t : Table) (hfs : fs.files p = some rec)
    (hr : rec.readable = true) (hp : parse rec.bytes = some t) :
    smart_load parse fs p initState =
      (.ok t, ⟨[((p, md5Digest rec.bytes), t)], 1, 1⟩) := by
  simp [smart_load, validate_file, load_file_cached, load_file, lruGet,
    lruPut, hfs, hr, hp, initState, CACHE_CAP]

theorem smart_load_hit (parse : List Nat → Option Table) (fs : FS)
    (p : String) (rec : FileRec) (t : Table) (pc hc : Nat)
    (hfs : fs.files p = some rec) (hr : rec.readable = true) :
    smart_load parse fs p ⟨[((p, md5Digest rec.bytes), t)], pc, hc⟩ =
      (.ok t, ⟨[((p, md5Digest rec.bytes), t)], pc, hc + 1⟩) := by
  simp [smart_load, validate_file, load_file_cached, lruGet, hfs, hr]

/-- C5: loading an unchanged file twice from a fresh state returns the
same table both times, with exactly one parser invocation in total (the
second call is a cache hit on the key `(path, content hash)` and does
not re-parse); and the LRU cache is bounded: an insert never grows it
past the fixed capacity, and inserting a fresh key into a full cache
evicts exactly the least-recently-used (last) entry. -/
theorem claim5_cache_hit_no_reparse (parse : List Nat → Option Table)
    (fs : FS) (p : String) (rec : FileRec) (t : Table)
    (hfs : fs.files p = some rec) (hr : rec.readable = true)
    (hp : parse rec.bytes = some t) :
    ((smart_load parse fs p initState).1 = .ok t ∧
     (smart_load parse fs p (smart_load parse fs p initState).2).1 = .ok t ∧
     (smart_load parse fs p initState).2.parseCount = 1 ∧
     (smart_load parse fs p (smart_load parse fs p initState).2).2.parseCount
       = 1) ∧
    (∀ (cache : List (CacheKey × Table)) (k : CacheKey) (tbl : Table),
      (lruPut cache k tbl).length ≤ CACHE_CAP) ∧
    (∀ (cache : List (CacheKey × Table)) (k : CacheKey) (tbl : Table),
      cache.length = CACHE_CAP → (∀ e ∈ cache, e.1 ≠ k) →
      lruPut cache k tbl = (k, tbl) :: cache.dropLast) := by
  refine ⟨?_, ?_, ?_⟩
  · rw [smart_load_fresh parse fs p rec t hfs hr hp]
    rw [smart_load_hit parse fs p rec t 1 1 hfs hr]
    exact ⟨rfl, rfl, rfl, rfl⟩
  · intro cache k tbl
    simp only [lruPut, List.length_take]
    exact Nat.le_trans (Nat.min_le_left _ _) (Nat.le_refl _)
  · intro cache k tbl hlen hk
    unfold lruPut
    rw [filter_eq_self_of _ _ (fun e he => decide_eq_true (hk e he))]
    have h32 : CACHE_CAP = 31 + 1 := rfl
    rw [h32, List.take_succ_cons, List.dropLast_eq_take, hlen]
    rfl

/-- C5, witness: the double-load conjunct at the concrete one-file
system `fs5`. -/
theorem claim5_witness :
    (smart_load parse5 fs5 "a.csv" initState).1 = .ok t5 ∧
    (smart_load parse5 fs5 "a.csv"
      (smart_load parse5 fs5 "a.csv" initState).2).2.parseCount = 1 := by
  have h := claim5_cache_hit_no_reparse parse5 fs5 "a.csv" ⟨true, [3]⟩ t5
    rfl rfl rfl
  exact ⟨h.1.1, h.1.2.2.2⟩

/-- C10: `clean_file` deep-copies the loaded table before cleaning it
(`df = df.copy()`), so the table stored in the cache stays exactly as
parsed: after cleaning, the cache still maps `(path, hash)` to the raw
parse, and a subsequent `smart_load` of the unchanged file returns that
raw table — duplicate rows, raw column names and missing values intact
— not the cleaned one. -/
theorem claim10_clean_no_cache_mutation (parse : List Nat → Option Table)
    (fs : FS) (p : String) (rec : FileRec) (t ct : Table)
    (hfs : fs.files p = some rec) (hr : rec.readable = true)
    (hp : parse rec.bytes = some t) (hct : cleanTable t = some ct) :
    (clean_file parse fs p initState).1 = .ok ct ∧
    ((p, md5Digest rec.bytes), t) ∈ (clean_file parse fs p initState).2.cache ∧
    (smart_load parse fs p (clean_file parse fs p initState).2).1 = .ok t := by
  have hc : clean_file parse fs p initState =
      (.ok ct, ⟨[((p, md5Digest rec.bytes), t)], 1, 1⟩) := by
    unfold clean_file
    rw [smart_load_fresh parse fs p rec t hfs hr hp]
    dsimp only
    rw [hct]
  rw [hc]
  exact ⟨rfl, List.mem_cons_self _ _,
    by rw [smart_load_hit parse fs p rec t 1 1 hfs hr]⟩

/-- C10, witness: cleaning and then re-loading the one-file system
`fs5` returns the raw parse `t5`. -/
theorem claim10_witness :
    (clean_file parse5 fs5 "a.csv" initState).1 = .ok t5 ∧
    (smart_load parse5 fs5 "a.csv"
      (clean_file parse5 fs5 "a.csv" initState).2).1 = .ok t5 := by
  have h := claim10_clean_no_cache_mutation parse5 fs5 "a.csv" ⟨true, [3]⟩
    t5 t5 rfl rfl rfl (by decide)
  exact ⟨h.1, h.2.2⟩

/-- C2: type inference on an object column is all-or-nothing in strict
priority order over the non-missing, non-blank (after strip) sample: the
column becomes datetime iff the sample is non-empty and every sample
value date-parses; numeric iff the sample is non-empty, every value
numeric-parses and the datetime step failed; duration iff every value
duration-parses and both earlier steps failed; when no promotion
succeeds the column stays string-typed with every cell stringified and
stripped.  Non-object columns pass through unchanged; `["1","2","x"]`
is not promoted while `["1","2","3"]` becomes numeric. -/
theorem claim2_inference_all_or_nothing :
    (∀ vs : List (Option String),
      ((inferAndConvertSeries (.obj vs)).isDt = true ↔
        sampleVals vs ≠ [] ∧
          ∀ v ∈ sampleVals vs, (parseDT v).isSome = true) ∧
      ((inferAndConvertSeries (.obj vs)).isNum = true ↔
        sampleVals vs ≠ [] ∧
          (∀ v ∈ sampleVals vs, (parseNum v).isSome = true) ∧
          ¬ ∀ v ∈ sampleVals vs, (parseDT v).isSome = true) ∧
      ((inferAndConvertSeries (.obj vs)).isDur = true ↔
        sampleVals vs ≠ [] ∧
          (∀ v ∈ sampleVals vs, (parseDur v).isSome = true) ∧
          ¬ (∀ v ∈ sampleVals vs, (parseDT v).isSome = true) ∧
          ¬ ∀ v ∈ sampleVals vs, (parseNum v).isSome = true) ∧
      (sampleVals vs ≠ [] →
        ¬ (∀ v ∈ sampleVals vs, (parseDT v).isSome = true) →
        ¬ (∀ v ∈ sampleVals vs, (parseNum v).isSome = true) →
        ¬ (∀ v ∈ sampleVals vs, (parseDur v).isSome = true) →
        inferAndConvertSeries (.obj vs) =
          .obj (vs.map (fun o => some (pyStrip (astypeStr o)))))) ∧
    (∀ d : ColData, d.isObj = false → inferAndConvertSeries d = d) ∧
    inferAndConvertSeries (.obj [some "1", some "2", some "x"]) =
      .obj [some "1", some "2", some "x"] ∧
    inferAndConvertSeries (.obj [some "1", some "2", some "3"]) =
      .num [some 1, some 2, some 3] := by
  refine ⟨?_, ?_, by decide, by decide⟩
  · intro vs
    by_cases h0 : (sampleVals vs).isEmpty
    · have hne : ¬ (sampleVals vs ≠ []) := by
        simpa [List.isEmpty_iff] using h0
      have hinf : inferAndConvertSeries (.obj vs) = .obj vs := by
        unfold inferAndConvertSeries
        dsimp only
        rw [if_pos h0]
      refine ⟨?_, ?_, ?_, ?_⟩
      · rw [hinf]
        exact iff_of_false Bool.false_ne_true (fun hx => hne hx.1)
      · rw [hinf]
        exact iff_of_false Bool.false_ne_true (fun hx => hne hx.1)
      · rw [hinf]
        exact iff_of_false Bool.false_ne_true (fun hx => hne hx.1)
      · intro hx
        exact absurd hx hne
    · have hne : sampleVals vs ≠ [] := by
        simpa [List.isEmpty_iff] using h0
      by_cases hdt : (sampleVals vs).all (fun v => (parseDT v).isSome)
      · have hdt' : ∀ v ∈ sampleVals vs, (parseDT v).isSome = true :=
          List.all_eq_true.mp hdt
        have hdt2 : ∀ v ∈ sampleVals vs, parseDT v ≠ none :=
          fun v hv => Option.isSome_iff_ne_none.mp (hdt' v hv)
        have hinf : inferAndConvertSeries (.obj vs) =
            .dt (vs.map (fun o => o.bind parseDT)) := by
          unfold inferAndConvertSeries
          dsimp only
          rw [if_neg h0, if_pos hdt]
        refine ⟨?_, ?_, ?_, ?_⟩
        · rw [hinf]
          exact iff_of_true rfl ⟨hne, hdt'⟩
        · rw [hinf]
          exact iff_of_false Bool.false_ne_true (fun hx => hx.2.2 hdt')
        · rw [hinf]
          exact iff_of_false Bool.false_ne_true (fun hx => hx.2.2.1 hdt')
        · intro _ hno _ _
          exact absurd hdt' hno
      · have hdtn : ¬ ∀ v ∈ sampleVals vs, (parseDT v).isSome = true :=
          fun hall => hdt (List.all_eq_true.mpr hall)
        by_cases hnm : (sampleVals vs).all (fun v => (parseNum v).isSome)
        · have hnm' : ∀ v ∈ sampleVals vs, (parseNum v).isSome = true :=
            List.all_eq_true.mp hnm
          have hnm2 : ∀ v ∈ sampleVals vs, parseNum v ≠ none :=
            fun v hv => Option.isSome_iff_ne_none.mp (hnm' v hv)
          have hinf : inferAndConvertSeries (.obj vs) =
              .num (vs.map (fun o => o.bind parseNum)) := by
            unfold inferAndConvertSeries
            dsimp only
            rw [if_neg h0, if_neg hdt, if_pos hnm]
          refine ⟨?_, ?_, ?_, ?_⟩
          · rw [hinf]
            exact iff_of_false Bool.false_ne_true (fun hx => hdtn hx.2)
          · rw [hinf]
            exact iff_of_true rfl ⟨hne, hnm', hdtn⟩
          · rw [hinf]
            exact iff_of_false Bool.false_ne_true (fun hx => hx.2.2.2 hnm')
          · intro _ _ hno _
            exact absurd hnm' hno
        · have hnmn : ¬ ∀ v ∈ sampleVals vs, (parseNum v).isSome = true :=
            fun hall => hnm (List.all_eq_true.mpr hall)
          by_cases hdu : (sampleVals vs).all (fun v => (parseDur v).isSome)
          · have hdu' : ∀ v ∈ sampleVals vs, (parseDur v).isSome = true :=
              List.all_eq_true.mp hdu
            have hdu2 : ∀ v ∈ sampleVals vs, parseDur v ≠ none :=
              fun v hv => Option.isSome_iff_ne_none.mp (hdu' v hv)
            have hinf : inferAndConvertSeries (.obj vs) =
                .dur (vs.map (fun o => o.bind parseDur)) := by
              unfold inferAndConvertSeries
              dsimp only
              rw [if_neg h0, if_neg hdt, if_neg hnm, if_pos hdu]
            refine ⟨?_, ?_, ?_, ?_⟩
            · rw [hinf]
              exact iff_of_false Bool.false_ne_true (fun hx => hdtn hx.2)
            · rw [hinf]
              exact iff_of_false Bool.false_ne_true (fun hx => hnmn hx.2.1)
            · rw [hinf]
              exact iff_of_true rfl ⟨hne, hdu', hdtn, hnmn⟩
            · intro _ _ _ hno
              exact absurd hdu' hno
          · have hdun : ¬ ∀ v ∈ sampleVals vs, (parseDur v).isSome = true :=
              fun hall => hdu (List.all_eq_true.mpr hall)
            have hinf : inferAndConvertSeries (.obj vs) =
                .obj (vs.map (fun o => some (pyStrip (astypeStr o)))) := by
              unfold inferAndConvertSeries
              dsimp only
              rw [if_neg h0, if_neg hdt, if_neg hnm, if_neg hdu]
            refine ⟨?_, ?_, ?_, ?_⟩
            · rw [hinf]
              exact iff_of_false Bool.false_ne_true (fun hx => hdtn hx.2)
            · rw [hinf]
              exact iff_of_false Bool.false_ne_true (fun hx => hnmn hx.2.1)
            · rw [hinf]
              exact iff_of_false Bool.false_ne_true (fun hx => hdun hx.2.1)
            · intro _ _ _ _
              exact hinf
  · intro d hd
    cases d with
    | obj vs => exact absurd hd (by simp [ColData.isObj])
    | num vs => rfl
    | dt vs => rfl
    | dur vs => rfl

/-- C2, witness: the fallthrough direction applied to the one-value
column `["x"]`, which no promotion accepts: the column stays
string-typed with its cells stringified and stripped. -/
theorem claim2_witness :
    inferAndConvertSeries (.obj [some "x"]) =
      .obj ([some "x"].map (fun o => some (pyStrip (astypeStr o)))) :=
  (claim2_inference_all_or_nothing.1 [some "x"]).2.2.2
    (by decide) (by decide) (by decide) (by decide)

theorem toDropAux_names :
    ∀ (ncs : List (String × List (Option ℚ)))
      (earlier : List (List (Option ℚ))) (name : String),
      name ∈ toDropAux ncs earlier → name ∈ ncs.map Prod.fst := by
  intro ncs
  induction ncs with
  | nil =>
    intro e n h
    exact absurd h (by simp [toDropAux])
  | cons q rest ih =>
    intro e n h
    obtain ⟨qn, qv⟩ := q
    unfold toDropAux at h
    rcases List.mem_append.mp h with h1 | h1
    · by_cases hc : e.any (fun ws => corrAbsGt95 ws qv)
      · rw [if_pos hc] at h1
        rw [List.mem_singleton.mp h1]
        exact List.mem_cons_self _ _
      · rw [if_neg hc] at h1
        exact absurd h1 (List.not_mem_nil n)
    · exact List.mem_cons_of_mem _ (ih _ n h1)

theorem numericCols_mem (t : Table) (name : String)
    (h : name ∈ (numericCols t).map Prod.fst) :
    ∃ c ∈ t, c.name = name ∧ c.data.isNum = true := by
  obtain ⟨p, hp, rfl⟩ := List.mem_map.mp h
  obtain ⟨c, hc, hfc⟩ := List.mem_filterMap.mp hp
  cases hd : c.data <;> rw [hd] at hfc
  case obj => exact absurd hfc (by simp)
  case dt => exact absurd hfc (by simp)
  case dur => exact absurd hfc (by simp)
  case num vs =>
    cases hfc
    exact ⟨c, hc, rfl, by rw [hd]; rfl⟩

/-- C4: the redundant-column eliminator never removes or changes a
non-numeric column: the returned table is a sublist of the input,
every marked label belongs to a numeric column, and (when the table's
column labels are distinct, the data model's invariant) every
non-numeric column is still present, unchanged, in the output. -/
theorem claim4_non_numeric_untouched (t : Table) :
    (find_similar_col_to_remove t).Sublist t ∧
    (∀ name ∈ toDrop t, ∃ c ∈ t, c.name = name ∧ c.data.isNum = true) ∧
    ((t.map Col.name).Nodup → ∀ c ∈ t, c.data.isNum = false →
      c ∈ find_similar_col_to_remove t) := by
  refine ⟨List.filter_sublist t, ?_, ?_⟩
  · intro name hname
    exact numericCols_mem t name (toDropAux_names (numericCols t) [] name hname)
  · intro hnd c hc hnn
    rw [find_similar_col_to_remove, List.mem_filter]
    refine ⟨hc, ?_⟩
    rw [decide_eq_true_eq]
    intro hmem
    obtain ⟨c', hc', hcn, hnum⟩ :=
      numericCols_mem t c.name (toDropAux_names (numericCols t) [] c.name hmem)
    have hceq : c' = c := List.inj_on_of_nodup_map hnd hc' hc hcn
    rw [hceq] at hnum
    rw [hnum] at hnn
    exact absurd hnn (by decide)

/-- C4, witness: the single non-numeric `age` column survives pruning
untouched. -/
theorem claim4_witness :
    (⟨"age", .obj [some "x"]⟩ : Col) ∈ find_similar_col_to_remove ageT :=
  (claim4_non_numeric_untouched ageT).2.2 (by decide)
    ⟨"age", .obj [some "x"]⟩ (List.mem_cons_self _ _) (by decide)

theorem keepFirst_nil {α : Type} [DecidableEq α] :
    keepFirst ([] : List α) = [] := by
  rw [keepFirst]

theorem keepFirst_cons {α : Type} [DecidableEq α] (x : α) (xs : List α) :
    keepFirst (x :: xs) =
      x :: keepFirst (xs.filter (fun y => decide (¬ y = x))) := by
  rw [keepFirst]

theorem filter_ne_of_not_p {α : Type} [DecidableEq α] (p : α → Bool) (y : α)
    (hp : p y = false) (l : List α) :
    (l.filter (fun z => decide (¬ z = y))).filter p = l.filter p := by
  rw [List.filter_filter]
  apply List.filter_congr
  intro a _
  cases hpa : p a with
  | false => simp [hpa]
  | true =>
    have hne : a ≠ y := fun he => by
      rw [he, hp] at hpa
      exact absurd hpa (by simp)
    simp [hpa, hne]

theorem bool_ne_true {b : Bool} (h : b = false) : ¬ b = true := by
  rw [h]
  decide

theorem keepFirst_filter {α : Type} [DecidableEq α] (p : α → Bool) :
    ∀ (n : Nat) (xs : List α), xs.length ≤ n →
      (keepFirst xs).filter p = keepFirst (xs.filter p) := by
  intro n
  induction n with
  | zero =>
    intro xs h
    have hx : xs = [] := List.eq_nil_of_length_eq_zero (Nat.le_zero.mp h)
    subst hx
    simp [keepFirst_nil]
  | succ n ih =>
    intro xs h
    cases xs with
    | nil => simp [keepFirst_nil]
    | cons y ys =>
      rw [keepFirst_cons]
      have hlen : (ys.filter (fun z => decide (¬ z = y))).length ≤ n :=
        Nat.le_trans (List.length_filter_le _ _) (Nat.le_of_succ_le_succ h)
      cases hp : p y with
      | true =>
        rw [List.filter_cons_of_pos hp, ih _ hlen,
          List.filter_cons_of_pos hp, keepFirst_cons, List.filter_comm]
      | false =>
        rw [List.filter_cons_of_neg (by simp [hp]), ih _ hlen,
          List.filter_cons_of_neg (by simp [hp]),
          filter_ne_of_not_p p y hp ys]

theorem filterMap_filter_and {α : Type} [DecidableEq α] (x : α) (xs : List α)
    (B : Nat → Bool) :
    ∀ (l : List Nat), (∀ j ∈ l, j < xs.length) →
      (l.filter (fun j =>
          decide (¬ (some x : Option α) = xs[j]?) && B j)).filterMap
        (fun j => xs[j]?) =
      ((l.filter B).filterMap (fun j => xs[j]?)).filter
        (fun v => decide (¬ v = x)) := by
  intro l
  induction l with
  | nil =>
    intro _
    rfl
  | cons j js ih =>
    intro hall
    have hj : j < xs.length := hall j (List.mem_cons_self _ _)
    have hv : xs[j]? = some xs[j] := List.getElem?_eq_getElem hj
    have ihr := ih (fun k hk => hall k (List.mem_cons_of_mem _ hk))
    by_cases hB : B j = true
    · by_cases hx : xs[j] = x
      · have hA : (decide (¬ (some x : Option α) = xs[j]?) && B j) = false := by
          rw [hv, hx]
          simp
        rw [List.filter_cons, List.filter_cons, if_neg (bool_ne_true hA),
          if_pos hB, List.filterMap_cons, hv]
        dsimp only
        rw [List.filter_cons,
          if_neg (bool_ne_true (by simp [hx]))]
        exact ihr
      · have hA : (decide (¬ (some x : Option α) = xs[j]?) && B j) = true := by
          rw [hv, hB]
          simp
          exact fun he => hx he.symm
        rw [List.filter_cons, List.filter_cons, if_pos hA, if_pos hB,
          List.filterMap_cons, hv, List.filterMap_cons, hv]
        dsimp only
        rw [List.filter_cons,
          if_pos (by simp [hx] : (decide (¬ xs[j] = x)) = true)]
        rw [ihr]
    · have hB' : B j = false := by
        cases hb2 : B j
        · rfl
        · exact absurd hb2 hB
      have hA : (decide (¬ (some x : Option α) = xs[j]?) && B j) = false := by
        rw [hB']
        simp
      rw [List.filter_cons, List.filter_cons, if_neg (bool_ne_true hA),
        if_neg (bool_ne_true hB')]
      exact ihr

theorem firstOccIdx_cons {α : Type} [DecidableEq α] (x : α) (xs : List α) :
    firstOccIdx (x :: xs) =
      0 :: ((List.range xs.length).filter
        (fun j => decide (¬ (some x : Option α) = xs[j]?) &&
          (List.range j).all (fun k => decide (¬ xs[k]? = xs[j]?)))).map
        Nat.succ := by
  unfold firstOccIdx
  rw [show (x :: xs).length = xs.length + 1 from rfl, List.range_succ_eq_map,
    List.filter_cons_of_pos (by simp), List.filter_map]
  congr 1
  apply congrArg (List.map Nat.succ)
  apply List.filter_congr
  intro j _
  show (List.range (j + 1)).all
      (fun k => decide (¬ (x :: xs)[k]? = (x :: xs)[j + 1]?)) = _
  rw [List.range_succ_eq_map, List.all_cons, List.all_map]
  simp only [Function.comp, List.getElem?_cons_zero, List.getElem?_cons_succ]
  congr 1
  apply congrArg
  funext k
  simp only [Function.comp, List.getElem?_cons_succ]

theorem firstOcc_filterMap_cons {α : Type} [DecidableEq α] (x : α)
    (xs : List α) :
    (firstOccIdx (x :: xs)).filterMap (fun j => (x :: xs)[j]?) =
      x :: ((List.range xs.length).filter
        (fun j => decide (¬ (some x : Option α) = xs[j]?) &&
          (List.range j).all (fun k => decide (¬ xs[k]? = xs[j]?)))).filterMap
        (fun j => xs[j]?) := by
  rw [firstOccIdx_cons, List.filterMap_cons]
  rw [show ((x :: xs)[0]? : Option α) = some x from List.getElem?_cons_zero]
  dsimp only
  rw [List.filterMap_map]
  have hfun : ((fun j => (x :: xs)[j]?) ∘ Nat.succ) = (fun j => xs[j]?) := by
    funext j
    exact List.getElem?_cons_succ
  rw [hfun]

theorem firstOcc_eq_keepFirst {α : Type} [DecidableEq α] :
    ∀ (n : Nat) (xs : List α), xs.length ≤ n →
      (firstOccIdx xs).filterMap (fun j => xs[j]?) = keepFirst xs := by
  intro n
  induction n with
  | zero =>
    intro xs h
    have hx : xs = [] := List.eq_nil_of_length_eq_zero (Nat.le_zero.mp h)
    subst hx
    simp [keepFirst_nil, firstOccIdx]
  | succ n ih =>
    intro xs h
    cases xs with
    | nil => simp [keepFirst_nil, firstOccIdx]
    | cons x ys =>
      rw [firstOcc_filterMap_cons, keepFirst_cons]
      rw [filterMap_filter_and x ys _ (List.range ys.length)
        (fun j hj => List.mem_range.mp hj)]
      have hfo : (List.range ys.length).filter
          (fun j => (List.range j).all (fun k => decide (¬ ys[k]? = ys[j]?))) =
          firstOccIdx ys := rfl
      rw [hfo, ih ys (Nat.le_of_succ_le_succ h)]
      exact congrArg (List.cons x)
        (keepFirst_filter _ n ys (Nat.le_of_succ_le_succ h))

theorem nRows_dropDuplicates (t : Table) :
    nRows (dropDuplicates t) = (keptIndices t).length := by
  cases t with
  | nil => rfl
  | cons c cs =>
    cases hd : c.data <;>
      simp [dropDuplicates, nRows, ColData.select, ColData.length, hd]

theorem select_elem (d : ColData) (idxs : List Nat) (j : Nat)
    (h : j < idxs.length) :
    (d.select idxs).elem j = d.elem (idxs.getD j 0) := by
  have hidx : idxs[j]? = some (idxs.getD j 0) := by
    rw [List.getElem?_eq_getElem h, List.getD_eq_getElem?_getD,
      List.getElem?_eq_getElem h]
    rfl
  have key : ∀ {β : Type} (f : Nat → β) (d0 : β),
      (idxs.map f).getD j d0 = f (idxs.getD j 0) := by
    intro β f d0
    rw [List.getD_eq_getElem?_getD, List.getElem?_map, hidx]
    rfl
  cases d with
  | obj vs =>
    simp only [ColData.select, ColData.elem]
    rw [key]
  | num vs =>
    simp only [ColData.select, ColData.elem]
    rw [key]
  | dt vs =>
    simp only [ColData.select, ColData.elem]
    rw [key]
  | dur vs =>
    simp only [ColData.select, ColData.elem]
    rw [key]

theorem rowAt_dropDuplicates (t : Table) (j : Nat)
    (h : j < (keptIndices t).length) :
    rowAt (dropDuplicates t) j = rowAt t ((keptIndices t).getD j 0) := by
  unfold rowAt dropDuplicates
  rw [List.map_map]
  apply List.map_congr_left
  intro c _
  exact select_elem c.data (keptIndices t) j h

theorem map_range_getD {β : Type} (f : Nat → β) :
    ∀ K : List Nat,
      (List.range K.length).map (fun j => f (K.getD j 0)) = K.map f := by
  intro K
  induction K with
  | nil => rfl
  | cons k ks ih =>
    rw [show (k :: ks).length = ks.length + 1 from rfl,
      List.range_succ_eq_map, List.map_cons, List.map_map,
      List.getD_cons_zero, List.map_cons]
    have hc : ((fun j => f ((k :: ks).getD j 0)) ∘ Nat.succ) =
        (fun j => f (ks.getD j 0)) := by
      funext j
      simp [List.getD_cons_succ]
    rw [hc, ih]

theorem filterMap_rows (t : Table) :
    ∀ K : List Nat, (∀ j ∈ K, j < nRows t) →
      K.filterMap (fun j => (rowsOf t)[j]?) = K.map (rowAt t) := by
  intro K
  induction K with
  | nil =>
    intro _
    rfl
  | cons k ks ih =>
    intro hall
    have hk : k < nRows t := hall k (List.mem_cons_self _ _)
    have hrow : (rowsOf t)[k]? = some (rowAt t k) := by
      unfold rowsOf
      rw [List.getElem?_map, List.getElem?_range hk]
      rfl
    rw [List.filterMap_cons, hrow]
    dsimp only
    rw [List.map_cons, ih (fun j hj => hall j (List.mem_cons_of_mem _ hj))]

theorem keptIndices_lt (t : Table) : ∀ j ∈ keptIndices t, j < nRows t := by
  intro j hj
  have h1 : j ∈ List.range (rowsOf t).length := List.mem_of_mem_filter hj
  have h2 := List.mem_range.mp h1
  simpa [rowsOf, List.length_map, List.length_range] using h2

theorem rowsOf_dropDuplicates (t : Table) :
    rowsOf (dropDuplicates t) = keepFirst (rowsOf t) := by
  have h1 : rowsOf (dropDuplicates t) = (keptIndices t).map (rowAt t) := by
    unfold rowsOf
    rw [nRows_dropDuplicates]
    rw [List.map_congr_left (fun j hj =>
      rowAt_dropDuplicates t j (List.mem_range.mp hj))]
    exact map_range_getD (rowAt t) (keptIndices t)
  rw [h1, ← filterMap_rows t (keptIndices t) (keptIndices_lt t)]
  exact firstOcc_eq_keepFirst (rowsOf t).length (rowsOf t) (Nat.le_refl _)

/-- C7: row deduplication keeps exactly the rows with no earlier equal
row (all column values compared, the missing markers comparing equal to
each other), in their original order: the rows of the deduplicated
table are the keep-first deduplication of the original row list; and on
a table with two byte-identical rows the cleaned output contains
exactly one of them. -/
theorem claim7_dedup_keep_first :
    (∀ t : Table, rowsOf (dropDuplicates t) = keepFirst (rowsOf t)) ∧
    rowsOf (dropDuplicates ex7T) = [[Value.str "x"]] ∧
    cleanTable ex7T = some [⟨"a", .obj [some "x"]⟩] :=
  ⟨rowsOf_dropDuplicates, by decide, by decide⟩

end DIS
